import Mathlib

/-!
Verification development for the git client of rbtools
(`src/rbtools/clients/git.py`, class `GitClient`).

Modelling conventions:
* a Python `str` is a `List Char` (`Str` below); Python string methods
  (`startswith`, `strip`, `split`, `splitlines`, slicing, `in`) are
  translated to list functions with the same semantics;
* every external `git` invocation is a field of a `GitEnv` record holding
  the stdout the call would produce (the environment is fixed during one
  operation, matching the sequential one-shot CLI flow);
* Python code that can raise (`info[2]` on a short list, tuple unpacking
  of `split(":")`) is embedded in `Except Unit`, `.error ()` standing for
  the propagated exception;
* `None`-or-value results are `Option`.
-/

namespace RBGit

/-- Python strings are finite sequences of characters. -/
abbrev Str := List Char

/-- Python `s.startswith(pre)`. -/
def startswith (s pre : Str) : Bool := pre.isPrefixOf s

/-- Python `s.lstrip()`: drop leading whitespace. -/
def lstrip (s : Str) : Str := s.dropWhile Char.isWhitespace

/-- Python `s.rstrip()`: drop trailing whitespace (structural version). -/
def rstrip : Str → Str
  | [] => []
  | c :: cs =>
    match rstrip cs with
    | [] => if c.isWhitespace then [] else [c]
    | r => c :: r

/-- Python `s.strip()`: drop whitespace at both ends. -/
def strip (s : Str) : Str := rstrip (lstrip s)

/-- Python `needle in hay` for strings: substring containment. -/
def pyIn (needle hay : Str) : Bool := decide (needle <:+: hay)

/-- Python `s.splitlines()` (newline-only model: the sources only ever
feed it text whose line separator is `\n`). -/
def splitlines : Str → List Str
  | [] => []
  | c :: rest =>
    if c = '\n' then [] :: splitlines rest
    else
      match splitlines rest with
      | [] => [[c]]
      | t :: ts => (c :: t) :: ts

/-- Join lines with `\n` (no trailing newline), the inverse of
`splitlines` on newline-free nonempty line lists. -/
def joinlines : List Str → Str
  | [] => []
  | [l] => l
  | l :: ls => l ++ '\n' :: joinlines ls

/-- Case-insensitive substring test, used for the `/Reviewed-By: /i`
pattern; `pat` is given already lowercased. -/
def containsCI (s pat : Str) : Bool := pyIn pat (s.map Char.toLower)

/-- Per-translation state of `make_svn_diff`: the `filename` captured at
the last `+++ ` line and the "new file" flag set by `--- /dev/null`. -/
structure SvnState where
  filename : Str
  newfile : Bool
deriving Repr, DecidableEq

/-- One iteration of the `for line in diff_lines` loop of
`GitClient.make_svn_diff` (git.py lines 400-437): classify `line`,
produce the emitted text and the successor state.  `info[2]` raises
`IndexError` when the `diff ` header has fewer than three
space-separated fields, hence the `Except`. -/
def svnStep (rev : Str) (st : SvnState) (line : Str) : Except Unit (SvnState × Str) :=
  if startswith line ("diff ".data) then
    let info := line.splitOn ' '
    if h : 2 < info.length then
      .ok (st, ("Index: ".data) ++ info[2] ++ ("\n".data) ++ List.replicate 67 '=' ++ ("\n".data))
    else
      .error ()
  else if startswith line ("index ".data) then
    .ok (st, [])
  else if strip line = ("--- /dev/null".data) then
    .ok ({ st with newfile := true }, [])
  else if startswith line ("--- ".data) then
    .ok ({ st with newfile := false },
      ("--- ".data) ++ strip (line.drop 4) ++ ("\t(revision ".data) ++ rev ++ (")\n".data))
  else if startswith line ("+++ ".data) then
    let filename := strip (line.drop 4)
    if st.newfile then
      .ok ({ st with filename := filename },
        ("--- ".data) ++ filename ++ ("\t(revision 0)\n".data)
          ++ ("+++ ".data) ++ filename ++ ("\t(revision 0)\n".data))
    else
      .ok ({ st with filename := filename },
        ("+++ ".data) ++ filename ++ ("\t(working copy)\n".data))
  else if startswith line ("new file mode".data) then
    .ok (st, [])
  else if startswith line ("Binary files ".data) then
    .ok (st, ("Cannot display: file marked as a binary type.\n".data)
      ++ ("svn:mime-type = application/octet-stream\n".data))
  else
    .ok (st, line)

/-- The whole translation loop: thread the state through the lines and
concatenate the emitted pieces in input order. -/
def svnRun (rev : Str) : SvnState → List Str → Except Unit (SvnState × Str)
  | st, [] => .ok (st, [])
  | st, l :: ls =>
    match svnStep rev st l with
    | .error e => .error e
    | .ok r1 =>
      match svnRun rev r1.1 ls with
      | .error e => .error e
      | .ok r2 => .ok (r2.1, r1.2 ++ r2.2)

/-- Stdout of the external `git` invocations a `GitClient` operation can
make.  Each field holds the text a successful call would print; calls
whose failure the source tolerates (`ignore_errors=True,
none_on_ignored_error=True`) are `Option`-valued. -/
structure GitEnv where
  mergeBase : Str → Str → Str
  branchRContains : Str → Str
  gitDiff : Str → Str
  gitDiffLines : Str → List Str
  findRev : Str → Str
  revList : Str → Option (List Str)
  editOk : Str → Bool

/-- The fields of the client object that the diff operations read
(`self.type`, `self.upstream_branch`, `self.head_ref`). -/
structure Client where
  type : Str
  upstream_branch : Str
  head_ref : Str

/-- The `head_ref = "HEAD"; if self.head_ref: head_ref = self.head_ref`
prologue shared by `diff` and `diff_between_revisions`. -/
def headRef (cl : Client) : Str := if cl.head_ref = [] then "HEAD".data else cl.head_ref

/-- `GitClient.make_svn_diff` (git.py lines 385-439): resolve the bridge
revision for `parent_branch` via `git svn find-rev`, give up with `None`
when it is empty, otherwise run the translation loop. -/
def make_svn_diff (env : GitEnv) (parent_branch : Str) (diff_lines : List Str) :
    Except Unit (Option Str) :=
  let rev := strip (env.findRev parent_branch)
  if rev = [] then .ok none
  else
    match svnRun rev ⟨[], false⟩ diff_lines with
    | .error e => .error e
    | .ok r => .ok (some r.2)

/-- `GitClient.make_diff` (git.py lines 364-383): build the rev-range
argument (`"a..b"` when a commit is given, bare ancestor otherwise) and
dispatch on the backend type. -/
def make_diff (env : GitEnv) (cl : Client) (ancestor : Str) (commit : Str) :
    Except Unit (Option Str) :=
  let rev_range := if commit ≠ [] then ancestor ++ ("..".data) ++ commit else ancestor
  if cl.type = ("svn".data) then
    make_svn_diff env ancestor (env.gitDiffLines rev_range)
  else if cl.type = ("git".data) then
    .ok (some (env.gitDiff rev_range))
  else
    .ok none

/-- `GitClient.diff` (git.py lines 338-362).  The `_set_guesses` call and
the `rev_range_for_diff`/`merge_base` attribute writes only feed later
operations and never change the returned pair, so they are not part of
the returned value here. -/
def diff (env : GitEnv) (cl : Client) (parent_branch : Str) :
    Except Unit (Option Str × Option Str) :=
  let head_ref := headRef cl
  let merge_base := strip (env.mergeBase cl.upstream_branch head_ref)
  if parent_branch ≠ [] then
    match make_diff env cl parent_branch [] with
    | .error e => .error e
    | .ok d =>
      match make_diff env cl merge_base parent_branch with
      | .error e => .error e
      | .ok p => .ok (d, p)
  else
    match make_diff env cl merge_base head_ref with
    | .error e => .error e
    | .ok d => .ok (d, none)

/-- `GitClient.diff_between_revisions` (git.py lines 441-485).  In the
source the parent diff is computed before the primary diff; a
double-revision range with more than one `:` raises on tuple unpacking
(`.error ()`). -/
def diff_between_revisions (env : GitEnv) (cl : Client) (revision_range : Str) :
    Except Unit (Option Str × Option Str) :=
  let head_ref := headRef cl
  let merge_base := strip (env.mergeBase cl.upstream_branch head_ref)
  if ':' ∉ revision_range then
    let pdiff_required := env.branchRContains revision_range
    if pdiff_required = [] then
      match make_diff env cl merge_base revision_range with
      | .error e => .error e
      | .ok p =>
        match make_diff env cl revision_range [] with
        | .error e => .error e
        | .ok d => .ok (d, p)
    else
      match make_diff env cl revision_range [] with
      | .error e => .error e
      | .ok d => .ok (d, (none : Option Str))
  else
    match revision_range.splitOn ':' with
    | [r1, r2] =>
      let pdiff_required := env.branchRContains r1
      if pdiff_required = [] then
        match make_diff env cl merge_base r1 with
        | .error e => .error e
        | .ok p =>
          match make_diff env cl r1 r2 with
          | .error e => .error e
          | .ok d => .ok (d, p)
      else
        match make_diff env cl r1 r2 with
        | .error e => .error e
        | .ok d => .ok (d, (none : Option Str))
    | _ => .error ()

/-- The `reviewed_by` text built by `update_commits_with_reviewer_info`
(git.py lines 69-76) from `options.target_people`,
`options.target_groups` and the review URL. -/
def buildRB (people groups url : Str) : Str :=
  let rb := "Reviewed-By:".data
  let rb := if people ≠ [] then rb ++ (" ".data) ++ people else rb
  let rb := if people ≠ [] ∧ groups ≠ [] then rb ++ (" and".data) else rb
  let rb := if groups ≠ [] then rb ++ (" groups:".data) ++ groups else rb
  rb ++ (" <".data) ++ url ++ (">".data)

/-- The predicate of the adoption loop (git.py line 91):
`line.startswith('Reviewed-By: ') and review_url in line`. -/
def rbMatchLine (url l : Str) : Bool :=
  startswith l ("Reviewed-By: ".data) && pyIn url l

/-- Modelled from the spec: the effect on one commit's notes of `git
notes edit` under the GIT_EDITOR perl one-liner built at git.py lines
101-103.  That command (and the notes machinery interpreting it) is an
external process, not code of this file; the spec describes its effect
as a pure transformation: "rewrite its notes by removing any prior
`Reviewed-By:` line(s) (case-insensitive match) and appending exactly
one new line".  An absent note behaves as empty text. -/
def editTransform (rb : Str) (old : Option Str) : Str :=
  joinlines ((splitlines (old.getD [])).filter
    (fun l => !(containsCI l ("reviewed-by: ".data))) ++ [rb])

/-- What one call of `update_commits_with_reviewer_info` produces: the
returned count, the resulting per-commit notes, and the list of `git
notes edit` invocations performed (commit, annotation text). -/
structure UpdateResult where
  count : Nat
  notes : Str → Option Str
  trace : List (Str × Str)

/-- The `for commit in commits` loop of
`update_commits_with_reviewer_info` (git.py lines 104-110): run `git
notes edit` on each commit with the chosen `reviewed_by` text; a failed
edit is not counted and leaves the note unchanged. -/
def editLoop (env : GitEnv) (rb : Str) : List Str → (Str → Option Str) → UpdateResult
  | [], notes => ⟨0, notes, []⟩
  | c :: cs, notes =>
    if env.editOk c then
      let notes1 : Str → Option Str :=
        fun k => if k = c then some (editTransform rb (notes c)) else notes k
      let r := editLoop env rb cs notes1
      ⟨r.count + 1, r.notes, (c, rb) :: r.trace⟩
    else
      let r := editLoop env rb cs notes
      ⟨r.count, r.notes, (c, rb) :: r.trace⟩

/-- The adoption check of `update_commits_with_reviewer_info` (git.py
lines 86-97): read the oldest commit's notes (`None` on failure, and
`if output:` skips empty text) and return the first line that starts
with `Reviewed-By: ` and contains the review URL. -/
def adoption (review_url : Str) (notes : Str → Option Str) (c0 : Str) : Option Str :=
  match notes c0 with
  | none => none
  | some out =>
    if out = [] then none else (splitlines out).find? (rbMatchLine review_url)

/-- `GitClient.update_commits_with_reviewer_info` (git.py lines 54-111):
list the commits of the recorded range oldest-first, adopt an existing
`Reviewed-By:` line of the oldest commit when it already carries this
review's URL (counting it as a null update and skipping that commit),
then annotate the remaining commits. -/
def update_commits_with_reviewer_info (env : GitEnv) (notes : Str → Option Str)
    (people groups review_url : Str) (rev_range : Option (Str × Str)) : UpdateResult :=
  match rev_range with
  | none => ⟨0, notes, []⟩
  | some (a, b) =>
    match env.revList (a ++ ("..".data) ++ b) with
    | none => ⟨0, notes, []⟩
    | some raw =>
      match raw.map strip with
      | [] => ⟨0, notes, []⟩
      | c0 :: rest =>
        let reviewed_by := buildRB people groups review_url
        match adoption review_url notes c0 with
        | some l =>
          let r := editLoop env l rest notes
          ⟨r.count + 1, r.notes, r.trace⟩
        | none => editLoop env reviewed_by (c0 :: rest) notes

/-- The compiled form of the `github_re` pattern's host part
`github.com` followed by a separator (`/` or `:`): the unescaped dot of
the source pattern matches any character except newline. -/
def ghHost (sep : Char) : Str → Option Str
  | 'g' :: 'i' :: 't' :: 'h' :: 'u' :: 'b' :: d :: 'c' :: 'o' :: 'm' :: c :: rest =>
    if d ≠ '\n' ∧ c = sep then some rest else none
  | _ => none

/-- The compiled form of the pattern tail `(?P<repos>.*?)(.git)?$`:
`$` also matches just before one trailing newline, `.` never matches a
newline, the lazy `repos` group is as short as possible, so a final
any-char-plus-`git` window is stripped when present. -/
def ghTail (s : Str) : Option Str :=
  let core := if s.getLast? = some '\n' then s.dropLast else s
  if '\n' ∈ core then none
  else if 4 ≤ core.length ∧ core.drop (core.length - 3) = ('g' :: 'i' :: 't' :: []) then
    some (core.take (core.length - 4))
  else some core

/-- The compiled form of `([^@]+@)?github.com/` followed by the tail:
the optional userinfo group can only end at the first `@`, and the
engine falls back to omitting the group when the rest fails after it. -/
def ghUserHost (t : Str) : Option Str :=
  let pre := t.takeWhile (fun c => c ≠ '@')
  let withUser : Option Str :=
    if pre ≠ [] ∧ pre.length < t.length then
      (ghHost '/' (t.drop (pre.length + 1))).bind ghTail
    else none
  match withUser with
  | some r => some r
  | none => (ghHost '/' t).bind ghTail

/-- `github_re.match(url)` of `_github_paths` (git.py lines 115-122),
compiled branch by branch; the four alternation branches have mutually
exclusive literal prefixes, so they are tried as a prefix dispatch.
Returns the `repos` group on success. -/
def githubMatch (url : Str) : Option Str :=
  if startswith url ("http://".data) then ghUserHost (url.drop 7)
  else if startswith url ("https://".data) then ghUserHost (url.drop 8)
  else if startswith url ("git://".data) then (ghHost '/' (url.drop 6)).bind ghTail
  else if startswith url ("git@".data) then (ghHost ':' (url.drop 4)).bind ghTail
  else none

/-- `GitClient._github_paths` (git.py lines 113-134): a non-matching URL
is returned itself (`Sum.inl`), a matching one is expanded to the list
of the eight equivalent forms. -/
def _github_paths (url : Str) : Str ⊕ List Str :=
  match githubMatch url with
  | none => .inl url
  | some repos =>
    .inr [("http://github.com/".data) ++ repos,
          ("http://github.com/".data) ++ repos ++ (".git".data),
          ("https://github.com/".data) ++ repos,
          ("https://github.com/".data) ++ repos ++ (".git".data),
          ("git://github.com/".data) ++ repos,
          ("git://github.com/".data) ++ repos ++ (".git".data),
          ("git@github.com:".data) ++ repos,
          ("git@github.com:".data) ++ repos ++ (".git".data)]

/-- `GitClient.is_valid_version` (git.py lines 302-312), on version
triples of naturals. -/
def is_valid_version (actual expected : Nat × Nat × Nat) : Bool :=
  decide (actual.1 > expected.1) ||
    (decide (actual.1 = expected.1) && decide (actual.2.1 > expected.2.1)) ||
    (decide (actual.1 = expected.1) && decide (actual.2.1 = expected.2.1)
      && decide (actual.2.2 ≥ expected.2.2))

/-- Environment for the C6 witness whose bridge revision resolves. -/
def envC6a : GitEnv :=
  ⟨fun _ _ => [], fun _ => [], fun _ => [], fun _ => [], fun _ => (" 7 ".data),
   fun _ => none, fun _ => false⟩

/-- Environment for the C6 witness whose bridge revision is empty. -/
def envC6b : GitEnv :=
  ⟨fun _ _ => [], fun _ => [], fun _ => [], fun _ => [], fun _ => ("   ".data),
   fun _ => none, fun _ => false⟩

/-- Environment for the C1 witness: empty containment query output
(parent diff required), constant diff output, empty rev-list. -/
def envC1 : GitEnv :=
  ⟨fun _ _ => ("mb".data), fun _ => [], fun _ => ("DIFF".data), fun _ => [],
   fun _ => [], fun _ => none, fun _ => false⟩

/-- Environment for the C1 witness whose containment query reports a
containing remote branch. -/
def envC1b : GitEnv :=
  ⟨fun _ _ => ("mb".data), fun _ => ("  origin/topic".data), fun _ => ("DIFF".data),
   fun _ => [], fun _ => [], fun _ => none, fun _ => false⟩

/-- Client record for the C1/C2 witnesses: native backend, detached
head (so `head_ref` falls back to `HEAD`). -/
def clC1 : Client := ⟨("git".data), ("origin/master".data), []⟩

/-- Environment for the C9 witness: a two-commit range. -/
def envC9 : GitEnv :=
  ⟨fun _ _ => [], fun _ => [], fun _ => [], fun _ => [], fun _ => [],
   fun _ => some [("c1".data), ("c2".data)], fun _ => true⟩

/-- Notes state for the C9 witness: the oldest commit is already
annotated for review 7. -/
def notesC9 : Str → Option Str :=
  fun c => if c = ("c1".data) then some ("Reviewed-By: alice <http://rb/7>".data) else none

/-- Environment for the C7 counterexample and witness: a two-commit
range whose note edits all succeed. -/
def envC7 : GitEnv :=
  ⟨fun _ _ => [], fun _ => [], fun _ => [], fun _ => [], fun _ => [],
   fun _ => some [("c1".data), ("c2".data)], fun _ => true⟩

/-- Initial notes state for the C7 counterexample: no commit has notes
yet. -/
def notesC7 : Str → Option Str := fun _ => none

/-! ## String-level helper lemmas -/

theorem startswith_append_self (pre t : Str) : startswith (pre ++ t) pre = true := by
  rw [startswith, List.isPrefixOf_iff_prefix]
  exact List.prefix_append pre t

theorem startswith_head {a : Char} {pre s : Str} (h : startswith s (a :: pre) = true) :
    ∃ t, s = a :: t := by
  rw [startswith, List.isPrefixOf_iff_prefix] at h
  obtain ⟨t, rfl⟩ := h
  exact ⟨pre ++ t, rfl⟩

theorem strip_cons_head {c : Char} (s : Str) (hc : c.isWhitespace = false) :
    ∃ t, strip (c :: s) = c :: t := by
  have hl : lstrip (c :: s) = c :: s := by
    simp [lstrip, List.dropWhile_cons, hc]
  rw [strip, hl, rstrip]
  cases rstrip s with
  | nil => exact ⟨[], by simp [hc]⟩
  | cons x xs => exact ⟨x :: xs, rfl⟩

theorem strip_head_ne (c b : Char) (s t2 : Str) (hc : c.isWhitespace = false)
    (hne : c ≠ b) : strip (c :: s) ≠ b :: t2 := by
  obtain ⟨t, ht⟩ := strip_cons_head s hc
  rw [ht]
  intro h
  injection h with h1 _
  exact hne h1

theorem startswith_false_of_head {s : Str} {a : Char} {pre1 : Str} (b : Char) (pre2 : Str)
    (hs : startswith s (a :: pre1) = true) (hab : a ≠ b) :
    startswith s (b :: pre2) = false := by
  obtain ⟨t, rfl⟩ := startswith_head hs
  have : (b == a) = false := by
    simp [hab.symm]
  simp [startswith, List.isPrefixOf, this]

theorem strip_ne_of_startswith {s : Str} {a : Char} {pre : Str}
    (hs : startswith s (a :: pre) = true) (ha : a.isWhitespace = false)
    (b : Char) (t2 : Str) (hne : a ≠ b) : strip s ≠ b :: t2 := by
  obtain ⟨t, rfl⟩ := startswith_head hs
  exact strip_head_ne a b t t2 ha hne

theorem rstrip_append (l p : Str) :
    rstrip (l ++ p) = if rstrip p = [] then rstrip l else l ++ rstrip p := by
  induction l with
  | nil =>
    by_cases h : rstrip p = [] <;> simp [h, rstrip]
  | cons c l ih =>
    by_cases h : rstrip p = []
    · rw [if_pos h] at ih ⊢
      rw [List.cons_append, rstrip, ih, rstrip]
    · rw [if_neg h] at ih ⊢
      rw [List.cons_append, rstrip, ih]
      cases hl : l ++ rstrip p with
      | nil => exact absurd (List.append_eq_nil.mp hl).2 h
      | cons x xs => simp [List.cons_append, hl]

theorem rstrip_prefixOf (l : Str) : rstrip l <+: l := by
  induction l with
  | nil => simp [rstrip]
  | cons c l ih =>
    rw [rstrip]
    cases h : rstrip l with
    | nil =>
      by_cases hw : c.isWhitespace = true <;> simp [hw]
    | cons x xs =>
      rw [h] at ih
      exact List.cons_prefix_cons.mpr ⟨rfl, ih⟩

theorem dash_line_strip_ne {p : Str} (hp : strip p ≠ ("/dev/null".data)) :
    strip (("--- ".data) ++ p) ≠ ("--- /dev/null".data) := by
  intro h
  have hl : lstrip (("--- ".data) ++ p) = ("--- ".data) ++ p := rfl
  rw [strip, hl, rstrip_append] at h
  by_cases hc : rstrip p = []
  · rw [if_pos hc] at h
    exact absurd h (by decide)
  · rw [if_neg hc] at h
    have hsplit : ("--- /dev/null".data : Str) = ("--- ".data) ++ ("/dev/null".data) := by decide
    rw [hsplit] at h
    have h2 : rstrip p = ("/dev/null".data) := List.append_cancel_left h
    have hpf : ("/dev/null".data : Str) <+: p := h2 ▸ rstrip_prefixOf p
    obtain ⟨t, rfl⟩ := hpf
    have hls : lstrip (("/dev/null".data) ++ t) = ("/dev/null".data) ++ t := rfl
    exact hp (by rw [strip, hls, h2])

theorem prefix_extend {x y : Str} (h : x <+: y) (z : Str) : x <+: y ++ z :=
  h.trans (List.prefix_append y z)

/-! ## splitlines / joinlines lemmas -/

theorem splitlines_no_nl : ∀ (s : Str), ∀ l ∈ splitlines s, '\n' ∉ l := by
  intro s
  induction s with
  | nil => simp [splitlines]
  | cons c rest ih =>
    rw [splitlines]
    by_cases hc : c = '\n'
    · rw [if_pos hc]
      intro l hl
      rcases List.mem_cons.mp hl with h | h
      · subst h; simp
      · exact ih l h
    · rw [if_neg hc]
      cases hsp : splitlines rest with
      | nil =>
        intro l hl
        rcases List.mem_cons.mp hl with h | h
        · subst h
          intro hmem
          exact hc ((List.mem_singleton.mp hmem).symm)
        · simp at h
      | cons t ts =>
        intro l hl
        rcases List.mem_cons.mp hl with h | h
        · subst h
          intro hmem
          rcases List.mem_cons.mp hmem with h2 | h2
          · exact hc h2.symm
          · exact ih t (by rw [hsp]; exact List.mem_cons_self _ _) h2
        · exact ih l (by rw [hsp]; exact List.mem_cons_of_mem _ h)

theorem splitlines_single {r : Str} (hn : '\n' ∉ r) (hne : r ≠ []) :
    splitlines r = [r] := by
  induction r with
  | nil => exact absurd rfl hne
  | cons c cs ih =>
    have hc : ¬(c = '\n') := fun h => hn (h ▸ List.mem_cons_self c cs)
    rw [splitlines, if_neg hc]
    by_cases h : cs = []
    · subst h
      rfl
    · rw [ih (fun hm => hn (List.mem_cons_of_mem _ hm)) h]

theorem splitlines_append_nl {l : Str} (hl : '\n' ∉ l) (t : Str) :
    splitlines (l ++ '\n' :: t) = l :: splitlines t := by
  induction l with
  | nil => rw [List.nil_append, splitlines, if_pos rfl]
  | cons c cs ih =>
    have hc : ¬(c = '\n') := fun h => hl (h ▸ List.mem_cons_self c cs)
    rw [List.cons_append, splitlines, if_neg hc,
      ih (fun hm => hl (List.mem_cons_of_mem _ hm))]

theorem joinlines_cons (l : Str) (ls : List Str) (h : ls ≠ []) :
    joinlines (l :: ls) = l ++ '\n' :: joinlines ls := by
  cases ls with
  | nil => exact absurd rfl h
  | cons x xs => rfl

theorem splitlines_joinlines (ls : List Str) (r : Str)
    (hls : ∀ l ∈ ls, '\n' ∉ l) (hr : '\n' ∉ r) (hrne : r ≠ []) :
    splitlines (joinlines (ls ++ [r])) = ls ++ [r] := by
  induction ls with
  | nil => simpa using splitlines_single hr hrne
  | cons l ls ih =>
    rw [List.cons_append, joinlines_cons l (ls ++ [r]) (by simp),
      splitlines_append_nl (hls l (List.mem_cons_self _ _)),
      ih (fun x hx => hls x (List.mem_cons_of_mem _ hx))]

theorem joinlines_ne_nil (ls : List Str) (r : Str) (hrne : r ≠ []) :
    joinlines (ls ++ [r]) ≠ [] := by
  cases ls with
  | nil => simpa [joinlines] using hrne
  | cons l ls2 =>
    rw [List.cons_append, joinlines_cons _ _ (by simp)]
    simp

/-! ## Per-line characterization of the translator -/

theorem svnStep_devnull (rev : Str) (st : SvnState) :
    svnStep rev st ("--- /dev/null".data) = .ok ({ st with newfile := true }, []) := rfl

theorem svnStep_plus_new (rev : Str) (f p : Str) :
    svnStep rev ⟨f, true⟩ (("+++ ".data) ++ p) =
      .ok (⟨strip p, true⟩,
        ("--- ".data) ++ strip p ++ ("\t(revision 0)\n".data)
          ++ (("+++ ".data) ++ strip p ++ ("\t(revision 0)\n".data))) := by
  have g1 : startswith (("+++ ".data) ++ p) ("diff ".data) = false := rfl
  have g2 : startswith (("+++ ".data) ++ p) ("index ".data) = false := rfl
  have g3 : ¬(strip (("+++ ".data) ++ p) = ("--- /dev/null".data)) :=
    strip_head_ne '+' '-' (("++ ".data) ++ p) _ (by decide) (by decide)
  have g4 : startswith (("+++ ".data) ++ p) ("--- ".data) = false := rfl
  have g5 : startswith (("+++ ".data) ++ p) ("+++ ".data) = true := startswith_append_self _ _
  simp only [svnStep, g1, g2, g4, g5, Bool.false_eq_true, if_false, if_neg g3, if_true]
  simp [List.append_assoc]

theorem svnStep_plus_old (rev : Str) (f p : Str) :
    svnStep rev ⟨f, false⟩ (("+++ ".data) ++ p) =
      .ok (⟨strip p, false⟩, ("+++ ".data) ++ strip p ++ ("\t(working copy)\n".data)) := by
  have g1 : startswith (("+++ ".data) ++ p) ("diff ".data) = false := rfl
  have g2 : startswith (("+++ ".data) ++ p) ("index ".data) = false := rfl
  have g3 : ¬(strip (("+++ ".data) ++ p) = ("--- /dev/null".data)) :=
    strip_head_ne '+' '-' (("++ ".data) ++ p) _ (by decide) (by decide)
  have g4 : startswith (("+++ ".data) ++ p) ("--- ".data) = false := rfl
  have g5 : startswith (("+++ ".data) ++ p) ("+++ ".data) = true := startswith_append_self _ _
  simp only [svnStep, g1, g2, g4, g5, Bool.false_eq_true, if_false, if_neg g3, if_true]
  rfl

theorem svnStep_dash (rev : Str) (st : SvnState) (p : Str)
    (hp : strip (("--- ".data) ++ p) ≠ ("--- /dev/null".data)) :
    svnStep rev st (("--- ".data) ++ p) =
      .ok ({ st with newfile := false },
        ("--- ".data) ++ strip p ++ ("\t(revision ".data) ++ rev ++ (")\n".data)) := by
  have g1 : startswith (("--- ".data) ++ p) ("diff ".data) = false := rfl
  have g2 : startswith (("--- ".data) ++ p) ("index ".data) = false := rfl
  have g4 : startswith (("--- ".data) ++ p) ("--- ".data) = true := startswith_append_self _ _
  simp only [svnStep, g1, g2, g4, Bool.false_eq_true, if_false, if_neg hp, if_true]
  simp [List.append_assoc]

theorem svnRun_cons_cons {rev : Str} {st st1 st2 : SvnState} {l1 l2 : Str} {o1 o2 : Str}
    {post : List Str}
    (h1 : svnStep rev st l1 = .ok (st1, o1)) (h2 : svnStep rev st1 l2 = .ok (st2, o2)) :
    svnRun rev st (l1 :: l2 :: post) =
      (svnRun rev st2 post).map (fun r => (r.1, o1 ++ o2 ++ r.2)) := by
  simp only [svnRun, h1, h2]
  cases hr : svnRun rev st2 post with
  | error e => rfl
  | ok r => simp [Except.map, List.append_assoc]

/-! ## Annotator lemmas -/

theorem buildRB_startswith (p g u : Str) :
    startswith (buildRB p g u) ("Reviewed-By: ".data) = true := by
  rw [startswith, List.isPrefixOf_iff_prefix]
  by_cases hp : p ≠ []
  · by_cases hg : g ≠ []
    · simp only [buildRB, if_pos hp, if_pos hg,
        if_pos (show p ≠ [] ∧ g ≠ [] from ⟨hp, hg⟩)]
      exact ⟨_, rfl⟩
    · simp only [buildRB, if_pos hp, if_neg hg,
        if_neg (show ¬(p ≠ [] ∧ g ≠ []) from fun hc => hg hc.2)]
      exact ⟨_, rfl⟩
  · by_cases hg : g ≠ []
    · simp only [buildRB, if_neg hp, if_pos hg,
        if_neg (show ¬(p ≠ [] ∧ g ≠ []) from fun hc => hp hc.1)]
      exact ⟨_, rfl⟩
    · simp only [buildRB, if_neg hp, if_neg hg,
        if_neg (show ¬(p ≠ [] ∧ g ≠ []) from fun hc => hp hc.1)]
      exact ⟨_, rfl⟩

theorem buildRB_url_infix (p g u : Str) : u <:+: buildRB p g u := by
  simp only [buildRB]
  exact ⟨_ ++ (" <".data), (">".data), rfl⟩

theorem buildRB_no_nl {p g u : Str} (hp : '\n' ∉ p) (hg : '\n' ∉ g) (hu : '\n' ∉ u) :
    '\n' ∉ buildRB p g u := by
  simp only [buildRB]
  split_ifs <;>
    simp [List.mem_append, hp, hg, hu,
      (by decide : ('\n' ∈ (("Reviewed-By:".data) : Str)) = False),
      (by decide : ('\n' ∈ ((" ".data) : Str)) = False),
      (by decide : ('\n' ∈ ((" and".data) : Str)) = False),
      (by decide : ('\n' ∈ ((" groups:".data) : Str)) = False),
      (by decide : ('\n' ∈ ((" <".data) : Str)) = False),
      (by decide : ('\n' ∈ ((">".data) : Str)) = False)]

theorem buildRB_ne_nil (p g u : Str) : buildRB p g u ≠ [] := by
  obtain ⟨t, ht⟩ := startswith_head (buildRB_startswith p g u)
  rw [ht]
  simp

theorem buildRB_match (p g u : Str) : rbMatchLine u (buildRB p g u) = true := by
  rw [rbMatchLine, Bool.and_eq_true]
  exact ⟨buildRB_startswith p g u, by rw [pyIn, decide_eq_true_eq]; exact buildRB_url_infix p g u⟩

theorem containsCI_of_startswith {l : Str}
    (h : startswith l ("Reviewed-By: ".data) = true) :
    containsCI l ("reviewed-by: ".data) = true := by
  rw [startswith, List.isPrefixOf_iff_prefix] at h
  obtain ⟨t, rfl⟩ := h
  have hmap : (("Reviewed-By: ".data).map Char.toLower : Str) = ("reviewed-by: ".data) := by
    decide
  rw [containsCI, pyIn, List.map_append, hmap, decide_eq_true_eq]
  exact ⟨[], t.map Char.toLower, by simp⟩

theorem rbMatchLine_startswith {u l : Str} (h : rbMatchLine u l = true) :
    startswith l ("Reviewed-By: ".data) = true := by
  rw [rbMatchLine, Bool.and_eq_true] at h
  exact h.1

theorem editTransform_lines {rb : Str} (old : Option Str) (hnl : '\n' ∉ rb)
    (hne : rb ≠ []) :
    splitlines (editTransform rb old) =
      ((splitlines (old.getD [])).filter
        (fun l => !(containsCI l ("reviewed-by: ".data)))) ++ [rb] := by
  apply splitlines_joinlines
  · intro l hl
    exact splitlines_no_nl _ l (List.mem_of_mem_filter hl)
  · exact hnl
  · exact hne

theorem editTransform_ne_nil {rb : Str} (old : Option Str) (hne : rb ≠ []) :
    editTransform rb old ≠ [] :=
  joinlines_ne_nil _ rb hne

theorem editTransform_stable {rb : Str} (old : Option Str) (hnl : '\n' ∉ rb)
    (hne : rb ≠ []) (hci : containsCI rb ("reviewed-by: ".data) = true) :
    editTransform rb (some (editTransform rb old)) = editTransform rb old := by
  conv_lhs => rw [editTransform]
  rw [Option.getD_some, editTransform_lines old hnl hne, List.filter_append]
  have h2 : (((splitlines (old.getD [])).filter
        (fun l => !(containsCI l ("reviewed-by: ".data)))).filter
          (fun l => !(containsCI l ("reviewed-by: ".data))))
      = (splitlines (old.getD [])).filter
          (fun l => !(containsCI l ("reviewed-by: ".data))) := by
    rw [List.filter_filter]
    simp
  have h3 : ([rb].filter (fun l => !(containsCI l ("reviewed-by: ".data)))) = [] := by
    simp [List.filter, hci]
  rw [h2, h3, List.append_nil, editTransform]

theorem editTransform_find {rb u : Str} (old : Option Str) (hnl : '\n' ∉ rb)
    (hne : rb ≠ []) (hm : rbMatchLine u rb = true) :
    (splitlines (editTransform rb old)).find? (rbMatchLine u) = some rb := by
  rw [editTransform_lines old hnl hne, List.find?_append]
  have h1 : ((splitlines (old.getD [])).filter
      (fun l => !(containsCI l ("reviewed-by: ".data)))).find? (rbMatchLine u) = none := by
    rw [List.find?_eq_none]
    intro x hx hmx
    have hci := containsCI_of_startswith (rbMatchLine_startswith hmx)
    have hkeep := List.of_mem_filter hx
    rw [hci] at hkeep
    simp at hkeep
  rw [h1]
  simp [List.find?, hm]

theorem editLoop_trace (env : GitEnv) (rb : Str) :
    ∀ (cs : List Str) (notes : Str → Option Str),
      (editLoop env rb cs notes).trace = cs.map (fun c => (c, rb)) := by
  intro cs
  induction cs with
  | nil => intro notes; rfl
  | cons c cs ih =>
    intro notes
    by_cases h : env.editOk c = true <;> simp [editLoop, h, ih]

theorem editLoop_count (env : GitEnv) (rb : Str) :
    ∀ (cs : List Str) (notes : Str → Option Str),
      (∀ c ∈ cs, env.editOk c = true) →
      (editLoop env rb cs notes).count = cs.length := by
  intro cs
  induction cs with
  | nil => intro notes _; rfl
  | cons c cs ih =>
    intro notes hok
    have hc : env.editOk c = true := hok c (List.mem_cons_self _ _)
    simp [editLoop, hc, ih _ (fun x hx => hok x (List.mem_cons_of_mem _ hx))]

theorem editLoop_notes_notmem (env : GitEnv) (rb : Str) :
    ∀ (cs : List Str) (notes : Str → Option Str) (k : Str), k ∉ cs →
      (editLoop env rb cs notes).notes k = notes k := by
  intro cs
  induction cs with
  | nil => intro notes k _; rfl
  | cons c cs ih =>
    intro notes k hk
    have hkc : ¬(k = c) := fun h => hk (h ▸ List.mem_cons_self c cs)
    have hk2 : k ∉ cs := fun h => hk (List.mem_cons_of_mem _ h)
    by_cases h : env.editOk c = true
    · simp only [editLoop, h, if_true]
      rw [ih _ k hk2]
      simp [hkc]
    · simp only [editLoop, h, Bool.false_eq_true, if_false]
      exact ih _ k hk2

theorem editLoop_notes_mem (env : GitEnv) (rb : Str) :
    ∀ (cs : List Str) (notes : Str → Option Str) (c : Str), cs.Nodup → c ∈ cs →
      env.editOk c = true →
      (editLoop env rb cs notes).notes c = some (editTransform rb (notes c)) := by
  intro cs
  induction cs with
  | nil => intro notes c _ hc; cases hc
  | cons a cs ih =>
    intro notes c hnd hc hok
    rcases List.mem_cons.mp hc with rfl | hmem
    · simp only [editLoop, hok, if_true]
      rw [editLoop_notes_notmem env rb cs _ c (List.nodup_cons.mp hnd).1]
      simp
    · have hca : ¬(c = a) := fun h => (List.nodup_cons.mp hnd).1 (h ▸ hmem)
      by_cases h : env.editOk a = true
      · simp only [editLoop, h, if_true]
        rw [ih _ c (List.nodup_cons.mp hnd).2 hmem hok]
        simp [hca]
      · simp only [editLoop, h, Bool.false_eq_true, if_false]
        exact ih _ c (List.nodup_cons.mp hnd).2 hmem hok

theorem editLoop_stable (env : GitEnv) (rb : Str) :
    ∀ (cs : List Str) (notes : Str → Option Str),
      (∀ c ∈ cs, notes c = some (editTransform rb (notes c))) →
      (editLoop env rb cs notes).notes = notes := by
  intro cs
  induction cs with
  | nil => intro notes _; rfl
  | cons c cs ih =>
    intro notes hst
    by_cases h : env.editOk c = true
    · simp only [editLoop, h, if_true]
      have hn1 : (fun k => if k = c then some (editTransform rb (notes c)) else notes k)
          = notes := by
        funext k
        by_cases hk : k = c
        · subst hk
          rw [if_pos rfl]
          exact (hst k (List.mem_cons_self _ _)).symm
        · rw [if_neg hk]
      rw [hn1]
      exact ih notes (fun x hx => hst x (List.mem_cons_of_mem _ hx))
    · simp only [editLoop, h, Bool.false_eq_true, if_false]
      exact ih notes (fun x hx => hst x (List.mem_cons_of_mem _ hx))

theorem update_run_adopted (env : GitEnv) (notes : Str → Option Str)
    (p g u a b : Str) (raw : List Str) (c0 : Str) (rest : List Str) (l : Str)
    (hrl : env.revList (a ++ ("..".data) ++ b) = some raw)
    (hcs : raw.map strip = c0 :: rest)
    (hfound : adoption u notes c0 = some l) :
    update_commits_with_reviewer_info env notes p g u (some (a, b)) =
      ⟨(editLoop env l rest notes).count + 1, (editLoop env l rest notes).notes,
        (editLoop env l rest notes).trace⟩ := by
  simp only [update_commits_with_reviewer_info, hrl, hcs, hfound]

theorem update_run_fresh (env : GitEnv) (notes : Str → Option Str)
    (p g u a b : Str) (raw : List Str) (c0 : Str) (rest : List Str)
    (hrl : env.revList (a ++ ("..".data) ++ b) = some raw)
    (hcs : raw.map strip = c0 :: rest)
    (hfound : adoption u notes c0 = none) :
    update_commits_with_reviewer_info env notes p g u (some (a, b)) =
      editLoop env (buildRB p g u) (c0 :: rest) notes := by
  simp only [update_commits_with_reviewer_info, hrl, hcs, hfound]

/-! ## Claim theorems -/

/-- Claim C3: wherever a `--- /dev/null` old-file header followed by a
`+++ <path>` header occurs in the input (any preceding state, any
remaining lines), the translator emits nothing for the `--- /dev/null`
line and, at the `+++` line, exactly the two header lines
`--- <path>\t(revision 0)` and `+++ <path>\t(revision 0)`, both taking
the (stripped) path from the `+++` line. -/
theorem C3_new_file_revision_zero (rev : Str) (st : SvnState) (p : Str) (post : List Str) :
    svnRun rev st (("--- /dev/null".data) :: (("+++ ".data) ++ p) :: post) =
      (svnRun rev ⟨strip p, true⟩ post).map
        (fun r => (r.1,
          (("--- ".data) ++ strip p ++ ("\t(revision 0)\n".data)
            ++ (("+++ ".data) ++ strip p ++ ("\t(revision 0)\n".data))) ++ r.2)) := by
  rw [svnRun_cons_cons (svnStep_devnull rev st) (svnStep_plus_new rev st.filename p)]
  cases hr : svnRun rev ⟨strip p, true⟩ post with
  | error e => rfl
  | ok r => simp [Except.map, List.append_assoc]

/-- Claim C4: wherever a `--- <path>` old-file header with a path other
than `/dev/null` occurs, followed by its `+++ <path>` header, the
translator emits `--- <path>\t(revision <rev>)` for the old-file line
(`rev` the resolved bridge revision) and only
`+++ <path>\t(working copy)` for the `+++` line. -/
theorem C4_modified_file_headers (rev : Str) (st : SvnState) (p : Str) (post : List Str)
    (hp : strip p ≠ ("/dev/null".data)) :
    svnRun rev st ((("--- ".data) ++ p) :: (("+++ ".data) ++ p) :: post) =
      (svnRun rev ⟨strip p, false⟩ post).map
        (fun r => (r.1,
          (("--- ".data) ++ strip p ++ ("\t(revision ".data) ++ rev ++ (")\n".data)
            ++ (("+++ ".data) ++ strip p ++ ("\t(working copy)\n".data))) ++ r.2)) := by
  rw [svnRun_cons_cons (svnStep_dash rev st p (dash_line_strip_ne hp))
    (svnStep_plus_old rev st.filename p)]

/-- Witness for C4 at a concrete modified-file section. -/
theorem C4_modified_file_headers_witness :
    svnRun ("42".data) ⟨[], false⟩
        [("--- foo/bar.c".data), ("+++ foo/bar.c".data)] =
      Except.ok (⟨("foo/bar.c".data), false⟩,
        ("--- foo/bar.c\t(revision 42)\n+++ foo/bar.c\t(working copy)\n".data)) := by
  have h := C4_modified_file_headers ("42".data) ⟨[], false⟩ ("foo/bar.c".data) []
    (by decide)
  rw [show (("--- ".data) ++ ("foo/bar.c".data) : Str) = ("--- foo/bar.c".data) from rfl,
    show (("+++ ".data) ++ ("foo/bar.c".data) : Str) = ("+++ foo/bar.c".data) from rfl] at h
  rw [h]
  rfl

/-- Claim C5: per-line behaviour of the translator, for any state: a
`diff ` header (with the third space-separated field present) emits
`Index: <field 3>` and a separator of 67 `=` characters; `index ` and
`new file mode` lines emit nothing; a `Binary files ` line emits the two
fixed binary-marker lines; a line matching none of the classified
patterns is copied through unchanged; and the loop output is the
in-order concatenation of the per-line emissions. -/
theorem C5_line_classification (rev : Str) (st : SvnState) (line : Str) (ls : List Str) :
    (startswith line ("diff ".data) = true →
      ∀ hlen : 2 < (line.splitOn ' ').length,
        svnStep rev st line = .ok (st,
          ("Index: ".data) ++ (line.splitOn ' ')[2] ++ ("\n".data)
            ++ List.replicate 67 '=' ++ ("\n".data))) ∧
    (startswith line ("index ".data) = true → svnStep rev st line = .ok (st, [])) ∧
    (startswith line ("new file mode".data) = true → svnStep rev st line = .ok (st, [])) ∧
    (startswith line ("Binary files ".data) = true →
      svnStep rev st line = .ok (st,
        ("Cannot display: file marked as a binary type.\n".data)
          ++ ("svn:mime-type = application/octet-stream\n".data))) ∧
    (startswith line ("diff ".data) = false →
      startswith line ("index ".data) = false →
      strip line ≠ ("--- /dev/null".data) →
      startswith line ("--- ".data) = false →
      startswith line ("+++ ".data) = false →
      startswith line ("new file mode".data) = false →
      startswith line ("Binary files ".data) = false →
      svnStep rev st line = .ok (st, line)) ∧
    (svnRun rev st (line :: ls) = (svnStep rev st line).bind
      (fun r1 => (svnRun rev r1.1 ls).map (fun r2 => (r2.1, r1.2 ++ r2.2)))) := by
  refine ⟨?_, ?_, ?_, ?_, ?_, ?_⟩
  · intro hsw hlen
    simp only [svnStep, hsw, if_true]
    rw [dif_pos hlen]
  · intro hsw
    obtain ⟨t, rfl⟩ := startswith_head hsw
    have g1 : startswith ('i' :: t) ("diff ".data) = false := rfl
    have g3 : strip ('i' :: t) ≠ ("--- /dev/null".data) :=
      strip_head_ne 'i' '-' t _ (by decide) (by decide)
    simp only [svnStep, hsw, g1, Bool.false_eq_true, if_false, if_true]
  · intro hsw
    obtain ⟨t, rfl⟩ := startswith_head hsw
    have g1 : startswith ('n' :: t) ("diff ".data) = false := rfl
    have g2 : startswith ('n' :: t) ("index ".data) = false := rfl
    have g3 : strip ('n' :: t) ≠ ("--- /dev/null".data) :=
      strip_head_ne 'n' '-' t _ (by decide) (by decide)
    have g4 : startswith ('n' :: t) ("--- ".data) = false := rfl
    have g5 : startswith ('n' :: t) ("+++ ".data) = false := rfl
    simp only [svnStep, hsw, g1, g2, g4, g5, Bool.false_eq_true, if_false, if_neg g3, if_true]
  · intro hsw
    obtain ⟨t, rfl⟩ := startswith_head hsw
    have g1 : startswith ('B' :: t) ("diff ".data) = false := rfl
    have g2 : startswith ('B' :: t) ("index ".data) = false := rfl
    have g3 : strip ('B' :: t) ≠ ("--- /dev/null".data) :=
      strip_head_ne 'B' '-' t _ (by decide) (by decide)
    have g4 : startswith ('B' :: t) ("--- ".data) = false := rfl
    have g5 : startswith ('B' :: t) ("+++ ".data) = false := rfl
    have g6 : startswith ('B' :: t) ("new file mode".data) = false := rfl
    simp only [svnStep, hsw, g1, g2, g4, g5, g6, Bool.false_eq_true, if_false,
      if_neg g3, if_true]
  · intro h1 h2 h3 h4 h5 h6 h7
    simp only [svnStep, h1, h2, h4, h5, h6, h7, Bool.false_eq_true, if_false, if_neg h3]
  · cases h : svnStep rev st line with
    | error e => simp [svnRun, h, Except.bind]
    | ok r1 =>
      cases hr : svnRun rev r1.1 ls with
      | error e => simp [svnRun, h, hr, Except.bind, Except.map]
      | ok r2 => simp [svnRun, h, hr, Except.bind, Except.map]

/-- Witness for C5 at concrete lines of each class. -/
theorem C5_line_classification_witness :
    svnStep ("9".data) ⟨[], false⟩ ("diff --git a/f b/f".data) =
      Except.ok (⟨[], false⟩,
        ("Index: ".data) ++ ("a/f".data) ++ ("\n".data)
          ++ List.replicate 67 '=' ++ ("\n".data)) ∧
    svnStep ("9".data) ⟨[], false⟩ ("index 0000000..e69de29".data) =
      Except.ok (⟨[], false⟩, []) ∧
    svnStep ("9".data) ⟨[], false⟩ ("new file mode 100644".data) =
      Except.ok (⟨[], false⟩, []) ∧
    svnStep ("9".data) ⟨[], false⟩ ("Binary files a/x and b/x differ".data) =
      Except.ok (⟨[], false⟩,
        ("Cannot display: file marked as a binary type.\n".data)
          ++ ("svn:mime-type = application/octet-stream\n".data)) ∧
    svnStep ("9".data) ⟨[], false⟩ ("@@ -0,0 +1 @@\n".data) =
      Except.ok (⟨[], false⟩, ("@@ -0,0 +1 @@\n".data)) := by
  refine ⟨?_, ?_, ?_, ?_, ?_⟩
  · have h := (C5_line_classification ("9".data) ⟨[], false⟩
      ("diff --git a/f b/f".data) []).1 (by decide) (by decide)
    rw [h]
    rfl
  · exact (C5_line_classification ("9".data) ⟨[], false⟩
      ("index 0000000..e69de29".data) []).2.1 (by decide)
  · exact (C5_line_classification ("9".data) ⟨[], false⟩
      ("new file mode 100644".data) []).2.2.1 (by decide)
  · exact (C5_line_classification ("9".data) ⟨[], false⟩
      ("Binary files a/x and b/x differ".data) []).2.2.2.1 (by decide)
  · exact (C5_line_classification ("9".data) ⟨[], false⟩
      ("@@ -0,0 +1 @@\n".data) []).2.2.2.2.1 (by decide) (by decide) (by decide)
      (by decide) (by decide) (by decide) (by decide)

/-- Claim C1: explicit single-revision mode of `diff_between_revisions`
(no `:` in the range string), native backend.  Under a clean working
tree (diffing against the bare revision agrees with diffing the range up
to `head_ref`), the primary diff covers `(R, head_ref]`; a parent diff
is produced exactly when the remote-branch containment query for `R`
comes back empty, and then covers `(merge_base, R]` and is non-nil;
when `R` is contained in some remote branch the parent diff is nil. -/
theorem C1_single_revision_mode (env : GitEnv) (cl : Client) (R : Str)
    (hty : cl.type = ("git".data)) (hR : R ≠ []) (hc : ':' ∉ R)
    (hclean : env.gitDiff R = env.gitDiff (R ++ ("..".data) ++ headRef cl)) :
    diff_between_revisions env cl R =
      .ok (some (env.gitDiff (R ++ ("..".data) ++ headRef cl)),
        if env.branchRContains R = [] then
          some (env.gitDiff (strip (env.mergeBase cl.upstream_branch (headRef cl))
            ++ ("..".data) ++ R))
        else none) ∧
    (∀ d p, diff_between_revisions env cl R = .ok (d, p) →
      (p ≠ none ↔ env.branchRContains R = [])) := by
  have hne : ¬(("git".data : Str) = ("svn".data)) := by decide
  have hmd1 : make_diff env cl R [] = .ok (some (env.gitDiff R)) := by
    simp [make_diff, hty, hne]
  have hmd2 : make_diff env cl (strip (env.mergeBase cl.upstream_branch (headRef cl))) R
      = .ok (some (env.gitDiff (strip (env.mergeBase cl.upstream_branch (headRef cl))
          ++ ("..".data) ++ R))) := by
    simp [make_diff, hty, hne, hR]
  have main : diff_between_revisions env cl R =
      .ok (some (env.gitDiff (R ++ ("..".data) ++ headRef cl)),
        if env.branchRContains R = [] then
          some (env.gitDiff (strip (env.mergeBase cl.upstream_branch (headRef cl))
            ++ ("..".data) ++ R))
        else none) := by
    by_cases hb : env.branchRContains R = []
    · simp only [diff_between_revisions, if_pos hc, hb, if_pos rfl, hmd1, hmd2, hclean,
        if_true]
    · simp only [diff_between_revisions, if_pos hc, if_neg hb, hmd1, hclean]
  refine ⟨main, ?_⟩
  intro d p hdp
  rw [main] at hdp
  injection hdp with h
  rw [Prod.mk.injEq] at h
  obtain ⟨-, h2⟩ := h
  subst h2
  by_cases hb : env.branchRContains R = [] <;> simp [hb]

/-- Witness for C1: with an uncontained revision the parent diff is
produced and non-nil, with a contained one it is nil. -/
theorem C1_single_revision_mode_witness :
    diff_between_revisions envC1 clC1 ("r1".data) =
      Except.ok (some ("DIFF".data), some ("DIFF".data)) ∧
    diff_between_revisions envC1b clC1 ("r1".data) =
      Except.ok (some ("DIFF".data), none) ∧
    ((some ("DIFF".data) : Option Str) ≠ none ↔ envC1.branchRContains ("r1".data) = []) := by
  have h1 := C1_single_revision_mode envC1 clC1 ("r1".data) rfl (by decide) (by decide) rfl
  have h2 := C1_single_revision_mode envC1b clC1 ("r1".data) rfl (by decide) (by decide) rfl
  refine ⟨?_, ?_, ?_⟩
  · rw [h1.1]
    rfl
  · rw [h2.1]
    rfl
  · exact h1.2 (some ("DIFF".data)) (some ("DIFF".data)) (by rw [h1.1]; rfl)

/-- Claim C2: parent-branch mode of `diff` (a nonempty parent branch in
the options), native backend.  Under a clean working tree the primary
diff covers `(parent_branch, head_ref]` and the parent diff covers
`(merge_base, parent_branch]`, where `merge_base` is the stripped
merge-base of the upstream branch and the current head. -/
theorem C2_parent_branch_mode (env : GitEnv) (cl : Client) (pb : Str)
    (hty : cl.type = ("git".data)) (hpb : pb ≠ [])
    (hclean : env.gitDiff pb = env.gitDiff (pb ++ ("..".data) ++ headRef cl)) :
    diff env cl pb =
      .ok (some (env.gitDiff (pb ++ ("..".data) ++ headRef cl)),
        some (env.gitDiff (strip (env.mergeBase cl.upstream_branch (headRef cl))
          ++ ("..".data) ++ pb))) := by
  have hne : ¬(("git".data : Str) = ("svn".data)) := by decide
  have hmd1 : make_diff env cl pb [] = .ok (some (env.gitDiff pb)) := by
    simp [make_diff, hty, hne]
  have hmd2 : make_diff env cl (strip (env.mergeBase cl.upstream_branch (headRef cl))) pb
      = .ok (some (env.gitDiff (strip (env.mergeBase cl.upstream_branch (headRef cl))
          ++ ("..".data) ++ pb))) := by
    simp [make_diff, hty, hne, hpb]
  simp only [diff, if_pos hpb, hmd1, hmd2, hclean]

/-- Witness for C2 at a concrete environment and parent branch. -/
theorem C2_parent_branch_mode_witness :
    diff envC1 clC1 ("feature".data) =
      Except.ok (some ("DIFF".data), some ("DIFF".data)) := by
  rw [C2_parent_branch_mode envC1 clC1 ("feature".data) rfl (by decide) rfl]
  rfl

/-- Claim C9: when the oldest commit of the range already carries a
notes line starting with `Reviewed-By: ` that contains the review URL,
the annotator adopts that line (the first such line) verbatim as the
text embedded in the note edit of every remaining commit, in preference
to the freshly built attribution text. -/
theorem C9_adopt_existing_line (env : GitEnv) (notes0 : Str → Option Str)
    (p g u a b : Str) (raw : List Str) (c0 : Str) (rest : List Str) (out l : Str)
    (hrl : env.revList (a ++ ("..".data) ++ b) = some raw)
    (hcs : raw.map strip = c0 :: rest)
    (hn0 : notes0 c0 = some out)
    (hone : out ≠ [])
    (hfind : (splitlines out).find? (rbMatchLine u) = some l) :
    (update_commits_with_reviewer_info env notes0 p g u (some (a, b))).trace
      = rest.map (fun c => (c, l)) := by
  have hfound : adoption u notes0 c0 = some l := by
    simp [adoption, hn0, hone, hfind]
  rw [update_run_adopted env notes0 p g u a b raw c0 rest l hrl hcs hfound]
  exact editLoop_trace env l rest notes0

/-- Witness for C9: the existing line of the oldest commit, not the
fresh `Reviewed-By: bob ...` text, is written to the second commit. -/
theorem C9_adopt_existing_line_witness :
    (update_commits_with_reviewer_info envC9 notesC9 ("bob".data) [] ("http://rb/7".data)
        (some (("mb".data), ("HEAD".data)))).trace
      = [(("c2".data), ("Reviewed-By: alice <http://rb/7>".data))] := by
  rw [C9_adopt_existing_line envC9 notesC9 ("bob".data) [] ("http://rb/7".data)
    ("mb".data) ("HEAD".data) [("c1".data), ("c2".data)] ("c1".data) [("c2".data)]
    ("Reviewed-By: alice <http://rb/7>".data) ("Reviewed-By: alice <http://rb/7>".data)
    rfl (by decide) rfl (by decide) (by decide)]
  rfl

/-- Claim C7 (amended): re-running the annotator over a range whose
commits were all successfully annotated by a first run with the same
review URL returns the same count and leaves every commit's notes
unchanged; the re-run does, however, re-invoke the note editor on every
commit except the oldest (each such edit rewriting identical content),
so the edit operations are not zero for multi-commit ranges. -/
theorem C7_rerun_same_count_same_notes (env : GitEnv) (notes0 : Str → Option Str)
    (p g u a b : Str) (raw : List Str)
    (hrl : env.revList (a ++ ("..".data) ++ b) = some raw)
    (hne : raw ≠ [])
    (hnd : (raw.map strip).Nodup)
    (hok : ∀ c ∈ raw.map strip, env.editOk c = true)
    (hp : '\n' ∉ p) (hg : '\n' ∉ g) (hu : '\n' ∉ u) :
    (update_commits_with_reviewer_info env
        (update_commits_with_reviewer_info env notes0 p g u (some (a, b))).notes
        p g u (some (a, b))).count
      = (update_commits_with_reviewer_info env notes0 p g u (some (a, b))).count ∧
    (update_commits_with_reviewer_info env
        (update_commits_with_reviewer_info env notes0 p g u (some (a, b))).notes
        p g u (some (a, b))).notes
      = (update_commits_with_reviewer_info env notes0 p g u (some (a, b))).notes ∧
    ((update_commits_with_reviewer_info env
        (update_commits_with_reviewer_info env notes0 p g u (some (a, b))).notes
        p g u (some (a, b))).trace).map Prod.fst
      = (raw.map strip).tail := by
  obtain ⟨c0, rest, hcs⟩ : ∃ c0 rest, raw.map strip = c0 :: rest := by
    cases h : raw.map strip with
    | nil => exact absurd (List.map_eq_nil_iff.mp h) hne
    | cons x xs => exact ⟨x, xs, rfl⟩
  have hnd' : (c0 :: rest).Nodup := hcs ▸ hnd
  have hok' : ∀ c ∈ (c0 :: rest), env.editOk c = true := hcs ▸ hok
  have hc0nr : c0 ∉ rest := (List.nodup_cons.mp hnd').1
  have hrestnd : rest.Nodup := (List.nodup_cons.mp hnd').2
  have hokrest : ∀ c ∈ rest, env.editOk c = true :=
    fun c hc => hok' c (List.mem_cons_of_mem _ hc)
  have htail : (raw.map strip).tail = rest := by rw [hcs, List.tail_cons]
  cases hA : adoption u notes0 c0 with
  | none =>
    have hswrb := buildRB_startswith p g u
    have hcirb := containsCI_of_startswith hswrb
    have hnlrb : '\n' ∉ buildRB p g u := buildRB_no_nl hp hg hu
    have hnerb : buildRB p g u ≠ [] := buildRB_ne_nil p g u
    have hmrb : rbMatchLine u (buildRB p g u) = true := buildRB_match p g u
    have hrun1 : update_commits_with_reviewer_info env notes0 p g u (some (a, b))
        = editLoop env (buildRB p g u) (c0 :: rest) notes0 :=
      update_run_fresh env notes0 p g u a b raw c0 rest hrl hcs hA
    have hs1c0 : (editLoop env (buildRB p g u) (c0 :: rest) notes0).notes c0
        = some (editTransform (buildRB p g u) (notes0 c0)) :=
      editLoop_notes_mem env (buildRB p g u) (c0 :: rest) notes0 c0 hnd'
        (List.mem_cons_self _ _) (hok' c0 (List.mem_cons_self _ _))
    have hs1rest : ∀ c ∈ rest, (editLoop env (buildRB p g u) (c0 :: rest) notes0).notes c
        = some (editTransform (buildRB p g u) (notes0 c)) :=
      fun c hc => editLoop_notes_mem env (buildRB p g u) (c0 :: rest) notes0 c hnd'
        (List.mem_cons_of_mem _ hc) (hokrest c hc)
    have hA2 : adoption u (editLoop env (buildRB p g u) (c0 :: rest) notes0).notes c0
        = some (buildRB p g u) := by
      simp only [adoption, hs1c0]
      rw [if_neg (editTransform_ne_nil (notes0 c0) hnerb)]
      exact editTransform_find (notes0 c0) hnlrb hnerb hmrb
    have hstab : ∀ c ∈ rest,
        (editLoop env (buildRB p g u) (c0 :: rest) notes0).notes c
          = some (editTransform (buildRB p g u)
              ((editLoop env (buildRB p g u) (c0 :: rest) notes0).notes c)) := by
      intro c hc
      rw [hs1rest c hc, editTransform_stable (notes0 c) hnlrb hnerb hcirb]
    have hrun2 := update_run_adopted env
      (editLoop env (buildRB p g u) (c0 :: rest) notes0).notes
      p g u a b raw c0 rest (buildRB p g u) hrl hcs hA2
    rw [hrun1, hrun2]
    dsimp only
    refine ⟨?_, ?_, ?_⟩
    · rw [editLoop_count env (buildRB p g u) rest _ hokrest,
        editLoop_count env (buildRB p g u) (c0 :: rest) notes0 hok']
      rfl
    · exact editLoop_stable env (buildRB p g u) rest _ hstab
    · rw [editLoop_trace env (buildRB p g u) rest _, htail, List.map_map]
      have hid : (Prod.fst ∘ fun c : Str => (c, buildRB p g u)) = id := funext fun c => rfl
      rw [hid, List.map_id]
  | some l =>
    have hl : ∃ out, notes0 c0 = some out ∧ out ≠ []
        ∧ (splitlines out).find? (rbMatchLine u) = some l := by
      cases hn : notes0 c0 with
      | none =>
        simp only [adoption, hn] at hA
        cases hA
      | some out =>
        simp only [adoption, hn] at hA
        by_cases ho : out = []
        · rw [if_pos ho] at hA
          cases hA
        · rw [if_neg ho] at hA
          exact ⟨out, rfl, ho, hA⟩
    obtain ⟨out, hn0, hone, hfind⟩ := hl
    have hml : rbMatchLine u l = true := List.find?_some hfind
    have hswl : startswith l ("Reviewed-By: ".data) = true := rbMatchLine_startswith hml
    have hcil := containsCI_of_startswith hswl
    have hnll : '\n' ∉ l := splitlines_no_nl out l (List.mem_of_find?_eq_some hfind)
    have hnel : l ≠ [] := by
      obtain ⟨t, ht⟩ := startswith_head hswl
      rw [ht]
      simp
    have hrun1 := update_run_adopted env notes0 p g u a b raw c0 rest l hrl hcs hA
    have hs1c0 : (editLoop env l rest notes0).notes c0 = notes0 c0 :=
      editLoop_notes_notmem env l rest notes0 c0 hc0nr
    have hs1rest : ∀ c ∈ rest, (editLoop env l rest notes0).notes c
        = some (editTransform l (notes0 c)) :=
      fun c hc => editLoop_notes_mem env l rest notes0 c hrestnd hc (hokrest c hc)
    have hA2 : adoption u (editLoop env l rest notes0).notes c0 = some l := by
      simp only [adoption, hs1c0, hn0]
      rw [if_neg hone]
      exact hfind
    have hstab : ∀ c ∈ rest, (editLoop env l rest notes0).notes c
        = some (editTransform l ((editLoop env l rest notes0).notes c)) := by
      intro c hc
      rw [hs1rest c hc, editTransform_stable (notes0 c) hnll hnel hcil]
    have hrun2 := update_run_adopted env (editLoop env l rest notes0).notes
      p g u a b raw c0 rest l hrl hcs hA2
    rw [hrun1, hrun2]
    dsimp only
    refine ⟨?_, ?_, ?_⟩
    · rw [editLoop_count env l rest _ hokrest, editLoop_count env l rest notes0 hokrest]
    · exact editLoop_stable env l rest _ hstab
    · rw [editLoop_trace env l rest _, htail, List.map_map]
      have hid : (Prod.fst ∘ fun c : Str => (c, l)) = id := funext fun c => rfl
      rw [hid, List.map_id]

/-- Counterexample to C7 as stated: over a freshly annotated two-commit
range, the re-run returns the same count (2) but still performs a note
edit (on the newest commit), so the number of additional note-edit
operations is one, not zero. -/
theorem C7_counterexample_rerun_edits :
    (update_commits_with_reviewer_info envC7 notesC7 [] [] ("http://rb/1".data)
        (some (("mb".data), ("HEAD".data)))).count = 2 ∧
    (update_commits_with_reviewer_info envC7
        (update_commits_with_reviewer_info envC7 notesC7 [] [] ("http://rb/1".data)
          (some (("mb".data), ("HEAD".data)))).notes
        [] [] ("http://rb/1".data) (some (("mb".data), ("HEAD".data)))).count = 2 ∧
    (update_commits_with_reviewer_info envC7
        (update_commits_with_reviewer_info envC7 notesC7 [] [] ("http://rb/1".data)
          (some (("mb".data), ("HEAD".data)))).notes
        [] [] ("http://rb/1".data) (some (("mb".data), ("HEAD".data)))).trace
      = [(("c2".data), ("Reviewed-By: <http://rb/1>".data))] ∧
    (update_commits_with_reviewer_info envC7
        (update_commits_with_reviewer_info envC7 notesC7 [] [] ("http://rb/1".data)
          (some (("mb".data), ("HEAD".data)))).notes
        [] [] ("http://rb/1".data) (some (("mb".data), ("HEAD".data)))).trace ≠ [] := by
  refine ⟨by decide, by decide, by decide, ?_⟩
  intro h
  have h2 : (update_commits_with_reviewer_info envC7
      (update_commits_with_reviewer_info envC7 notesC7 [] [] ("http://rb/1".data)
        (some (("mb".data), ("HEAD".data)))).notes
      [] [] ("http://rb/1".data) (some (("mb".data), ("HEAD".data)))).trace
      = [(("c2".data), ("Reviewed-By: <http://rb/1>".data))] := by decide
  rw [h] at h2
  cases h2

/-- Witness for the amended C7 at the two-commit environment: the re-run
returns the same count, leaves the notes function unchanged, and its
edit invocations touch exactly the non-oldest commit. -/
theorem C7_rerun_same_count_same_notes_witness :
    (update_commits_with_reviewer_info envC7
        (update_commits_with_reviewer_info envC7 notesC7 [] [] ("http://rb/1".data)
          (some (("mb".data), ("HEAD".data)))).notes
        [] [] ("http://rb/1".data) (some (("mb".data), ("HEAD".data)))).count
      = (update_commits_with_reviewer_info envC7 notesC7 [] [] ("http://rb/1".data)
          (some (("mb".data), ("HEAD".data)))).count ∧
    (update_commits_with_reviewer_info envC7
        (update_commits_with_reviewer_info envC7 notesC7 [] [] ("http://rb/1".data)
          (some (("mb".data), ("HEAD".data)))).notes
        [] [] ("http://rb/1".data) (some (("mb".data), ("HEAD".data)))).notes
      = (update_commits_with_reviewer_info envC7 notesC7 [] [] ("http://rb/1".data)
          (some (("mb".data), ("HEAD".data)))).notes ∧
    ((update_commits_with_reviewer_info envC7
        (update_commits_with_reviewer_info envC7 notesC7 [] [] ("http://rb/1".data)
          (some (("mb".data), ("HEAD".data)))).notes
        [] [] ("http://rb/1".data) (some (("mb".data), ("HEAD".data)))).trace).map Prod.fst
      = [("c2".data)] := by
  have h := C7_rerun_same_count_same_notes envC7 notesC7 [] [] ("http://rb/1".data)
    ("mb".data) ("HEAD".data) [("c1".data), ("c2".data)] rfl (by decide) (by decide)
    (by decide) (by decide) (by decide) (by decide)
  exact ⟨h.1, h.2.1, h.2.2.trans (by decide)⟩

/-- Claim C10: for all version triples of naturals, `is_valid_version
actual expected` returns `true` exactly when `actual` is greater than or
equal to `expected` in the lexicographic order on triples. -/
theorem C10_version_lex_ge (a e : Nat × Nat × Nat) :
    is_valid_version a e = true ↔
      toLex (e.1, toLex (e.2.1, e.2.2)) ≤ toLex (a.1, toLex (a.2.1, a.2.2)) := by
  rw [Prod.Lex.le_iff]
  simp only [Prod.Lex.le_iff]
  simp only [is_valid_version, Bool.or_eq_true, Bool.and_eq_true, decide_eq_true_eq]
  omega

/-- Claim C8: a URL matched by the github pattern is expanded to the
eight equivalent forms (`http`, `https`, `git`, ssh-shorthand, each with
and without a `.git` suffix, all built from the captured `repos` group);
a non-matching URL is passed through unchanged (the bare one-URL form of
the one-or-many `path`). -/
theorem C8_github_paths (url : Str) :
    (∀ repos, githubMatch url = some repos →
      _github_paths url =
        Sum.inr [("http://github.com/".data) ++ repos,
                 ("http://github.com/".data) ++ repos ++ (".git".data),
                 ("https://github.com/".data) ++ repos,
                 ("https://github.com/".data) ++ repos ++ (".git".data),
                 ("git://github.com/".data) ++ repos,
                 ("git://github.com/".data) ++ repos ++ (".git".data),
                 ("git@github.com:".data) ++ repos,
                 ("git@github.com:".data) ++ repos ++ (".git".data)]) ∧
    (githubMatch url = none → _github_paths url = Sum.inl url) := by
  constructor
  · intro repos h
    simp [_github_paths, h]
  · intro h
    simp [_github_paths, h]

/-- Witness for C8 at concrete URLs: the ssh-shorthand form with a
`.git` suffix expands to the eight forms for `user/repo`, and a
non-github URL passes through. -/
theorem C8_github_paths_witness :
    _github_paths ("git@github.com:user/repo.git".data) =
      Sum.inr [("http://github.com/".data) ++ ("user/repo".data),
               ("http://github.com/".data) ++ ("user/repo".data) ++ (".git".data),
               ("https://github.com/".data) ++ ("user/repo".data),
               ("https://github.com/".data) ++ ("user/repo".data) ++ (".git".data),
               ("git://github.com/".data) ++ ("user/repo".data),
               ("git://github.com/".data) ++ ("user/repo".data) ++ (".git".data),
               ("git@github.com:".data) ++ ("user/repo".data),
               ("git@github.com:".data) ++ ("user/repo".data) ++ (".git".data)] ∧
    _github_paths ("svn+ssh://host/trunk".data) = Sum.inl ("svn+ssh://host/trunk".data) := by
  constructor
  · exact (C8_github_paths _).1 ("user/repo".data) (by decide)
  · exact (C8_github_paths _).2 (by decide)

/-- Claim C6: `make_svn_diff` returns `None` exactly when the stripped
`git svn find-rev` output for the ancestor is empty; whenever it is
nonempty, any returned value is diff text, never `None`. -/
theorem C6_translator_none_iff (env : GitEnv) (pb : Str) (lines : List Str) :
    (make_svn_diff env pb lines = .ok none ↔ strip (env.findRev pb) = []) ∧
    (strip (env.findRev pb) ≠ [] →
      ∀ o, make_svn_diff env pb lines = .ok o → ∃ s, o = some s) := by
  unfold make_svn_diff
  by_cases h : strip (env.findRev pb) = []
  · simp [h]
  · cases hr : svnRun (strip (env.findRev pb)) ⟨[], false⟩ lines with
    | error e => simp [h, hr]
    | ok r => simp [h, hr]

/-- Witness for C6: with a resolvable revision the result is diff text,
with whitespace-only `find-rev` output it is `None`. -/
theorem C6_translator_none_iff_witness :
    (∃ s, (some ("x".data) : Option Str) = some s) ∧
    make_svn_diff envC6b ("b".data) [("x".data)] = Except.ok none := by
  constructor
  · exact (C6_translator_none_iff envC6a ("b".data) [("x".data)]).2 (by decide)
      (some ("x".data)) (by rfl)
  · exact (C6_translator_none_iff envC6b ("b".data) [("x".data)]).1.mpr (by decide)

end RBGit
